import Mathlib

/-!
Verification of the logcarrier repository's line-integrity buffer
(package logio, type Writer) and of the file registry (FileOp).

Bytes are modelled as natural numbers; the newline byte is 10.  The
underlying io.Writer is modelled as a pure sink that always succeeds
(the semantics of writing into a bytes.Buffer): each operation returns
the list of bytes it hands to the underlying writer together with the
updated Writer state.
-/

namespace Logcarrier

/-- The logio.Writer state: the eight fields of the source structure
(the io.Writer and the encoder are external collaborators, not state). -/
structure Writer where
  bufsize : Nat
  buffer : List Nat
  linebuf : List Nat
  finished : Bool
  lineCount : Nat
  savedLineCount : Nat
  prevLineCount : Nat
  worthFlushing : Bool
deriving DecidableEq

def defaultBufferSize : Nat := 128 * 1024 * 1024

/-- NewWriterSize: fresh writer, empty buffers, finished and
worthFlushing start true. -/
def NewWriterSize (size : Nat) : Writer :=
  { bufsize := size
    buffer := []
    linebuf := []
    finished := true
    lineCount := 0
    savedLineCount := 0
    prevLineCount := 0
    worthFlushing := true }

def NewWriter : Writer := NewWriterSize defaultBufferSize

/-- Flush: hand the committed buffer to the underlying writer (a no-op
when it is empty), clear it, and set savedLineCount = lineCount. -/
def Writer.Flush (w : Writer) : List Nat × Writer :=
  let out := if w.buffer.length > 0 then w.buffer else []
  (out, { w with buffer := [], savedLineCount := w.lineCount })

/-- FlushAll: Flush, then drain the staging area as well. -/
def Writer.FlushAll (w : Writer) : List Nat × Writer :=
  let f := w.Flush
  (f.1 ++ f.2.linebuf, { f.2 with linebuf := [] })

/-- bytes.IndexByte for the newline byte: index of the first 10. -/
def idxNL : List Nat → Option Nat
  | [] => none
  | b :: bs => if b = 10 then some 0 else (idxNL bs).map (· + 1)

/-- The `if !w.finished` block of Write: prepend the staged bytes to
the newline-terminated segment and clear the staging area. -/
def Writer.mergeLine (w : Writer) (seg : List Nat) : List Nat × Writer :=
  if w.finished then (seg, w) else (w.linebuf ++ seg, { w with linebuf := [] })

/-- The capacity check of Write: when the committed buffer plus the
line would exceed bufsize, clear the worthFlushing hint and Flush. -/
def Writer.preAppend (w : Writer) (line : List Nat) : List Nat × Writer :=
  if w.buffer.length + line.length > w.bufsize then
    ({ w with worthFlushing := false }).Flush
  else ([], w)

/-- One iteration tail of the Write loop: capacity check, append the
line to the committed buffer, bump lineCount, set finished. -/
def Writer.commitLine (w : Writer) (line : List Nat) : List Nat × Writer :=
  let p := w.preAppend line
  (p.1, { p.2 with buffer := p.2.buffer ++ line
                   lineCount := p.2.lineCount + 1
                   finished := true })

/-- The Write loop.  The fuel argument only bounds the number of loop
iterations; every iteration consumes at least one byte of data, so
`data.length` fuel (what `Writer.Write` passes) always suffices and the
fuel-exhausted branch is unreachable. -/
def writeGo : Nat → Writer → List Nat → Nat × List Nat × Writer
  | 0, w, _ => (0, [], w)
  | fuel + 1, w, data =>
    if data.isEmpty then (0, [], w)
    else
      match idxNL data with
      | none =>
        (data.length, [], { w with linebuf := w.linebuf ++ data, finished := false })
      | some pos =>
        let m := w.mergeLine (data.take (pos + 1))
        let c := m.2.commitLine m.1
        let r := writeGo fuel c.2 (data.drop (pos + 1))
        (pos + 1 + r.1, c.1 ++ r.2.1, r.2.2)

/-- Write: chunk the data at newline bytes; returned components are
(nn, bytes handed to the underlying writer, new state). -/
def Writer.Write (w : Writer) (data : List Nat) : Nat × List Nat × Writer :=
  writeGo data.length w data

def Writer.LinesBuffered (w : Writer) : Nat := w.lineCount - w.savedLineCount

def Writer.LinesWritten (w : Writer) : Nat := w.savedLineCount

/-- WorthFlushing: the result uses the pre-call fields; the call then
advances prevLineCount and re-arms the worthFlushing flag. -/
def Writer.WorthFlushing (w : Writer) : Bool × Writer :=
  let res := w.worthFlushing && w.savedLineCount != w.lineCount
               && w.savedLineCount == w.prevLineCount
  (res, { w with prevLineCount := w.savedLineCount, worthFlushing := true })

/-- Modelled from the spec: binenc.BinaryEncoder.Uint32 is not under
src/; per the checkpoint format it is a u32 in a fixed endianness
(little-endian chosen here), truncating like Go's uint32 conversion. -/
def encUint32 (n : Nat) : List Nat :=
  [n % 256, n / 256 % 256, n / 65536 % 256, n / 16777216 % 256]

/-- Modelled from the spec: binenc.BinaryEncoder.Bool is a u8 0/1. -/
def encBool (b : Bool) : List Nat := [if b then 1 else 0]

/-- Modelled from the spec: bindec reader primitive Bytes(n) — consume
exactly n bytes from the front, failing when fewer remain. -/
def rdByteSeq (n : Nat) (src : List Nat) : Option (List Nat × List Nat) :=
  if n ≤ src.length then some (src.take n, src.drop n) else none

/-- Little-endian u32 value of a 4-byte field. -/
def decodeU32 : List Nat → Nat
  | [b0, b1, b2, b3] => b0 + 256 * b1 + 65536 * b2 + 16777216 * b3
  | _ => 0

/-- Modelled from the spec: bindec.Uint32. -/
def rdUint32 (src : List Nat) : Option (Nat × List Nat) :=
  match rdByteSeq 4 src with
  | none => none
  | some (bs, rest) => some (decodeU32 bs, rest)

/-- Modelled from the spec: bindec.Bool (u8, nonzero = true). -/
def rdBool (src : List Nat) : Option (Bool × List Nat) :=
  match rdByteSeq 1 src with
  | none => none
  | some (bs, rest) => some (bs.headD 0 != 0, rest)

/-- DumpState: append the length-prefixed fields to dest in source
order; the Writer itself is returned unchanged (the method only reads
its receiver). -/
def Writer.DumpState (w : Writer) (dest : List Nat) : List Nat × Writer :=
  (dest ++ encUint32 w.bufsize
        ++ encUint32 w.buffer.length ++ w.buffer
        ++ encUint32 w.linebuf.length ++ w.linebuf
        ++ encBool w.finished
        ++ encUint32 w.lineCount
        ++ encUint32 w.savedLineCount
        ++ encUint32 w.prevLineCount
        ++ encBool w.worthFlushing, w)

/-- RestoreState: read every field first, with any failed read being a
hard error (`none` models the source's panic), and only then build the
restored state — mirroring the source, which assigns no field of the
Writer until all ten reads have succeeded. -/
def Writer.RestoreState (w : Writer) (src : List Nat) : Option Writer :=
  match rdUint32 src with
  | none => none
  | some (bufsize, s1) =>
    match rdUint32 s1 with
    | none => none
    | some (buflen, s2) =>
      match rdByteSeq buflen s2 with
      | none => none
      | some (buffer, s3) =>
        match rdUint32 s3 with
        | none => none
        | some (linebuflen, s4) =>
          match rdByteSeq linebuflen s4 with
          | none => none
          | some (linebuf, s5) =>
            match rdBool s5 with
            | none => none
            | some (finished, s6) =>
              match rdUint32 s6 with
              | none => none
              | some (linecount, s7) =>
                match rdUint32 s7 with
                | none => none
                | some (savedlinecount, s8) =>
                  match rdUint32 s8 with
                  | none => none
                  | some (prevlinecount, s9) =>
                    match rdBool s9 with
                    | none => none
                    | some (worthflushing, _) =>
                      some { w with
                        bufsize := bufsize
                        buffer := buffer
                        linebuf := linebuf
                        finished := finished
                        lineCount := linecount
                        savedLineCount := savedlinecount
                        prevLineCount := prevlinecount
                        worthFlushing := worthflushing }

/-- An operation of the write/flush interface (no FlushAll), used for
the line-integrity invariant over arbitrary call sequences. -/
inductive LOp where
  | write (data : List Nat)
  | flush
deriving DecidableEq

/-- One step of the interface, accumulating the byte stream handed to
the underlying writer. -/
def stepW : List Nat × Writer → LOp → List Nat × Writer
  | (out, w), .write d => ((out ++ (w.Write d).2.1), (w.Write d).2.2)
  | (out, w), .flush => ((out ++ (w.Flush).1), (w.Flush).2)

/-- Run a sequence of Writes and Flushes from a state, collecting the
bytes the underlying writer observes. -/
def runW (w : Writer) (ops : List LOp) : List Nat × Writer :=
  ops.foldl stepW ([], w)

/-- The total byte string submitted through Write by a sequence. -/
def inputB : List LOp → List Nat
  | [] => []
  | .write d :: rest => d ++ inputB rest
  | .flush :: rest => inputB rest

/-- Full interface of the writer, for reachability of states. -/
inductive Op where
  | write (data : List Nat)
  | flush
  | flushAll
  | check
deriving DecidableEq

def applyOp (w : Writer) : Op → Writer
  | .write d => (w.Write d).2.2
  | .flush => (w.Flush).2
  | .flushAll => (w.FlushAll).2
  | .check => (w.WorthFlushing).2

def runOps (w : Writer) (ops : List Op) : Writer := ops.foldl applyOp w

/-- States reachable from a fresh writer through the exported
interface. -/
def Reachable (w : Writer) : Prop :=
  ∃ size ops, runOps (NewWriterSize size) ops = w

/-- A byte string made of whole newline-terminated lines: it is empty
or its last byte is the newline (equivalently, it is a concatenation of
newline-terminated records). -/
def isLines (l : List Nat) : Prop := l = [] ∨ ∃ t, l = t ++ [10]

/-- The internal invariant of the line-integrity buffer: the committed
buffer holds whole lines, the staging area holds no newline, a finished
writer has empty staging, and savedLineCount never exceeds lineCount. -/
def WInv (w : Writer) : Prop :=
  isLines w.buffer ∧ 10 ∉ w.linebuf ∧ (w.finished = true → w.linebuf = [])
    ∧ w.savedLineCount ≤ w.lineCount

/-- The Bufferer of a registry entry, abstracted by the outcomes of its
Close and Logrotate calls (the registry code only forwards them). -/
structure BufM where
  closeErr : Option String
  rotErr : Option String
deriving DecidableEq

/-- Result of FileOp.GetFile, as the source's (res Buf, err error). -/
inductive GRes where
  | ok (b : BufM)
  | err (e : String)
deriving DecidableEq

namespace FileOp

/-- GetFile: return the registered entry, or build one through the
factory; the third component records whether the factory ran, the
second is the registry map after the call. -/
def GetFile (items : List (String × BufM)) (factory : String → GRes)
    (name : String) : GRes × List (String × BufM) × Bool :=
  match items.lookup name with
  | some buf => (GRes.ok buf, items, false)
  | none =>
    match factory name with
    | GRes.err e => (GRes.err e, items, true)
    | GRes.ok b => (GRes.ok b, (name, b) :: items, true)

/-- Observable events of one FileOp.Logrotate call on the entry. -/
inductive RotEvent where
  | lockAcquire
  | closeCall
  | logrotateCall
  | lockRelease
deriving DecidableEq

/-- Logrotate: look the entry up, then under its lock Close and (when
Close succeeded) Logrotate the bufferer.  In the source the statement
`if err := buf.Buf.Close(); err != nil \x7b goto exit \x7d` declares a
fresh if-scoped err shadowing the named return value, so on a Close
failure the function returns the never-assigned named err — nil — and
the Close error is dropped; this definition reproduces that. -/
def Logrotate (items : List (String × BufM)) (name : String)
    (_newpath : String) : List RotEvent × Option String :=
  match items.lookup name with
  | none => ([], some ("file not found: " ++ name))
  | some buf =>
    match buf.closeErr with
    | some _ =>
      ([RotEvent.lockAcquire, RotEvent.closeCall, RotEvent.lockRelease], none)
    | none =>
      ([RotEvent.lockAcquire, RotEvent.closeCall, RotEvent.logrotateCall,
        RotEvent.lockRelease], buf.rotErr)

end FileOp

/-- Concrete state for the WorthFlushing witness: the fresh writer of
capacity 100 after Write "a\n". -/
def wC5 : Writer :=
  { bufsize := 100, buffer := [97, 10], linebuf := [], finished := true,
    lineCount := 1, savedLineCount := 0, prevLineCount := 0, worthFlushing := true }

/-- Concrete state for the checkpoint witnesses: a 1 MiB writer after
Write "hello\nwor". -/
def wC4 : Writer :=
  (Writer.Write (NewWriterSize 1048576) [104, 101, 108, 108, 111, 10, 119, 111, 114]).2.2

/-- Concrete state for the short-restore witness. -/
def wC8 : Writer :=
  { bufsize := 100, buffer := [97, 10], linebuf := [98], finished := false,
    lineCount := 1, savedLineCount := 0, prevLineCount := 0, worthFlushing := true }

/-- Concrete state for the capacity-check witness: capacity 4 with two
committed bytes. -/
def wC6 : Writer :=
  { bufsize := 4, buffer := [97, 10], linebuf := [], finished := true,
    lineCount := 1, savedLineCount := 0, prevLineCount := 0, worthFlushing := true }

/-- Concrete registry and factory for the GetFile witness. -/
def bufA : BufM := { closeErr := none, rotErr := none }

def bufB : BufM := { closeErr := some "closefail", rotErr := none }

def items9 : List (String × BufM) := [("a", bufA)]

def factory9 : String → GRes :=
  fun n => if n = "b" then GRes.ok bufB else GRes.err "factoryfail"

theorem idxNL_none {l : List Nat} (h : idxNL l = none) : 10 ∉ l := by
  induction l with
  | nil => simp
  | cons b bs ih =>
    by_cases hb : b = 10
    · simp [idxNL, hb] at h
    · simp only [idxNL, hb, ite_false, Option.map_eq_none'] at h
      intro hmem
      rcases List.mem_cons.mp hmem with h10 | hc
      · exact hb h10.symm
      · exact ih h hc

theorem idxNL_some_lt {l : List Nat} {p : Nat} (h : idxNL l = some p) :
    p < l.length := by
  induction l generalizing p with
  | nil => simp [idxNL] at h
  | cons b bs ih =>
    simp only [idxNL] at h
    split at h
    · injection h with h'
      simp only [List.length_cons]
      omega
    · rw [Option.map_eq_some'] at h
      obtain ⟨q, hq, rfl⟩ := h
      have := ih hq
      simp only [List.length_cons]
      omega

theorem idxNL_take {l : List Nat} {p : Nat} (h : idxNL l = some p) :
    l.take (p + 1) = l.take p ++ [10] := by
  induction l generalizing p with
  | nil => simp [idxNL] at h
  | cons b bs ih =>
    simp only [idxNL] at h
    split at h
    · rename_i hb
      injection h with h'
      subst h'
      simp [hb]
    · rw [Option.map_eq_some'] at h
      obtain ⟨q, hq, rfl⟩ := h
      simp [List.take_succ_cons, ih hq]

theorem isLines_nil : isLines [] := Or.inl rfl

theorem isLines_concat (t : List Nat) : isLines (t ++ [10]) := Or.inr ⟨t, rfl⟩

theorem isLines_append {a b : List Nat} (ha : isLines a) (hb : isLines b) :
    isLines (a ++ b) := by
  rcases hb with rfl | ⟨tb, rfl⟩
  · simpa using ha
  · exact Or.inr ⟨a ++ tb, by simp⟩

theorem Flush_fst (w : Writer) : (w.Flush).1 = w.buffer := by
  unfold Writer.Flush
  by_cases h : w.buffer.length > 0
  · simp [h]
  · have : w.buffer = [] := List.length_eq_zero.mp (by omega)
    simp [this]

theorem Flush_snd (w : Writer) :
    (w.Flush).2 = { w with buffer := [], savedLineCount := w.lineCount } := rfl

theorem mergeLine_eq (w : Writer) (seg : List Nat)
    (h : w.finished = true → w.linebuf = []) :
    w.mergeLine seg = (w.linebuf ++ seg, { w with linebuf := [] }) := by
  unfold Writer.mergeLine
  cases hf : w.finished
  · simp
  · have hl := h hf
    cases w
    simp_all

theorem preAppend_cases (w : Writer) (line : List Nat) :
    (w.buffer.length + line.length > w.bufsize ∧
       w.preAppend line = (w.buffer,
         { w with buffer := [], savedLineCount := w.lineCount,
                  worthFlushing := false }))
    ∨ (w.buffer.length + line.length ≤ w.bufsize ∧ w.preAppend line = ([], w)) := by
  unfold Writer.preAppend
  by_cases h : w.buffer.length + line.length > w.bufsize
  · left
    refine ⟨h, ?_⟩
    simp only [h, if_pos]
    unfold Writer.Flush
    by_cases hb : w.buffer.length > 0
    · simp [hb]
    · have : w.buffer = [] := List.length_eq_zero.mp (by omega)
      simp [this]
  · right
    exact ⟨by omega, by simp [h]⟩

theorem commitLine_spec (w : Writer) (line : List Nat) :
    ((w.commitLine line).1 ++ (w.commitLine line).2.buffer = w.buffer ++ line)
    ∧ (w.commitLine line).2.linebuf = w.linebuf
    ∧ (w.commitLine line).2.finished = true
    ∧ ((w.commitLine line).1 = [] ∨ (w.commitLine line).1 = w.buffer)
    ∧ ((w.commitLine line).2.buffer = line
        ∨ (w.commitLine line).2.buffer = w.buffer ++ line)
    ∧ (w.commitLine line).2.lineCount = w.lineCount + 1
    ∧ ((w.commitLine line).2.savedLineCount = w.savedLineCount
        ∨ (w.commitLine line).2.savedLineCount = w.lineCount)
    ∧ (w.commitLine line).2.bufsize = w.bufsize := by
  rcases preAppend_cases w line with ⟨h, he⟩ | ⟨h, he⟩ <;>
    simp [Writer.commitLine, he]

theorem writeGo_spec : ∀ (fuel : Nat) (data : List Nat) (w : Writer),
    data.length ≤ fuel → WInv w →
    ((writeGo fuel w data).2.1 ++ (writeGo fuel w data).2.2.buffer
        ++ (writeGo fuel w data).2.2.linebuf = w.buffer ++ w.linebuf ++ data)
    ∧ WInv (writeGo fuel w data).2.2
    ∧ isLines (writeGo fuel w data).2.1 := by
  intro fuel
  induction fuel with
  | zero =>
    intro data w hlen hw
    have hd : data = [] := List.length_eq_zero.mp (Nat.le_zero.mp hlen)
    subst hd
    simp only [writeGo]
    exact ⟨by simp, hw, isLines_nil⟩
  | succ fuel ih =>
    intro data w hlen hw
    by_cases hde : data.isEmpty = true
    · have hd : data = [] := List.isEmpty_iff.mp hde
      subst hd
      simp only [writeGo, List.isEmpty_nil, if_true, ite_true]
      exact ⟨by simp, hw, isLines_nil⟩
    · obtain ⟨hbuf, hlb, hfin, hcnt⟩ := hw
      cases h : idxNL data with
      | none =>
        simp only [writeGo, hde, ite_false, if_false, Bool.false_eq_true, h]
        refine ⟨by simp, ⟨hbuf, ?_, by simp, hcnt⟩, isLines_nil⟩
        intro hmem
        rcases List.mem_append.mp hmem with hc | hc
        · exact hlb hc
        · exact idxNL_none h hc
      | some pos =>
        have hm := mergeLine_eq w (data.take (pos + 1)) hfin
        simp only [writeGo, hde, ite_false, if_false, Bool.false_eq_true, h]
        rw [hm]
        dsimp only
        set L := w.linebuf ++ List.take (pos + 1) data with hL
        set wm : Writer :=
          { bufsize := w.bufsize, buffer := w.buffer, linebuf := [],
            finished := w.finished, lineCount := w.lineCount,
            savedLineCount := w.savedLineCount, prevLineCount := w.prevLineCount,
            worthFlushing := w.worthFlushing } with hwm
        obtain ⟨hs1, hs2, hs3, hs4, hs5, hs6, hs7, hs8⟩ := commitLine_spec wm L
        set c := wm.commitLine L with hcdef
        set rest := List.drop (pos + 1) data with hrest
        set r := writeGo fuel c.2 rest with hrdef
        have hLlines : isLines L := by
          rw [hL, idxNL_take h, ← List.append_assoc]
          exact isLines_concat _
        have hwmbuf : wm.buffer = w.buffer := rfl
        have hwmlb : wm.linebuf = [] := rfl
        have hinvc : WInv c.2 := by
          refine ⟨?_, ?_, ?_, ?_⟩
          · rcases hs5 with h5 | h5 <;> rw [h5]
            · exact hLlines
            · rw [hwmbuf]; exact isLines_append hbuf hLlines
          · rw [hs2, hwmlb]; simp
          · intro _; rw [hs2, hwmlb]
          · have e6 : c.2.lineCount = wm.lineCount + 1 := hs6
            have ewm1 : wm.lineCount = w.lineCount := rfl
            have ewm2 : wm.savedLineCount = w.savedLineCount := rfl
            rcases hs7 with h7 | h7 <;> omega
        have hlen' : rest.length ≤ fuel := by
          have := idxNL_some_lt h
          rw [hrest]
          simp only [List.length_drop]
          omega
        obtain ⟨ihEq, ihInv, ihLines⟩ := ih rest c.2 hlen' hinvc
        refine ⟨?_, ihInv, isLines_append ?_ ihLines⟩
        · simp only [List.append_assoc] at ihEq ⊢
          rw [ihEq, hs2, hwmlb]
          simp only [List.nil_append]
          rw [← List.append_assoc, hs1, hwmbuf, hL, hrest]
          simp only [List.append_assoc]
          rw [List.take_append_drop]
        · rcases hs4 with h4 | h4 <;> rw [h4]
          · exact isLines_nil
          · rw [hwmbuf]; exact hbuf

theorem Write_spec (w : Writer) (data : List Nat) (hw : WInv w) :
    ((w.Write data).2.1 ++ (w.Write data).2.2.buffer ++ (w.Write data).2.2.linebuf
       = w.buffer ++ w.linebuf ++ data)
    ∧ WInv (w.Write data).2.2 ∧ isLines (w.Write data).2.1 :=
  writeGo_spec data.length data w (le_refl _) hw

theorem runW_fold (ops : List LOp) : ∀ (out : List Nat) (w : Writer),
    WInv w → isLines out →
    ((ops.foldl stepW (out, w)).1 ++ (ops.foldl stepW (out, w)).2.buffer
        ++ (ops.foldl stepW (out, w)).2.linebuf
       = out ++ w.buffer ++ w.linebuf ++ inputB ops)
    ∧ WInv (ops.foldl stepW (out, w)).2
    ∧ isLines (ops.foldl stepW (out, w)).1 := by
  induction ops with
  | nil =>
    intro out w hw hout
    refine ⟨?_, hw, hout⟩
    simp [inputB]
  | cons op rest ihop =>
    intro out w hw hout
    cases op with
    | write d =>
      simp only [List.foldl_cons, stepW, inputB]
      obtain ⟨wEq, wInv, wLines⟩ := Write_spec w d hw
      obtain ⟨rEq, rInv, rLines⟩ :=
        ihop (out ++ (w.Write d).2.1) (w.Write d).2.2 wInv (isLines_append hout wLines)
      refine ⟨?_, rInv, rLines⟩
      rw [rEq]
      have wEq' : ∀ X : List Nat,
          (w.Write d).2.1 ++ ((w.Write d).2.2.buffer ++ ((w.Write d).2.2.linebuf ++ X))
            = w.buffer ++ (w.linebuf ++ (d ++ X)) := by
        intro X
        have h2 := congrArg (· ++ X) wEq
        simpa [List.append_assoc] using h2
      simp only [List.append_assoc]
      rw [wEq' (inputB rest)]
    | flush =>
      simp only [List.foldl_cons, stepW, inputB]
      have hf1 : (w.Flush).1 = w.buffer := Flush_fst w
      have hwInv : WInv (w.Flush).2 := ⟨isLines_nil, hw.2.1, hw.2.2.1, le_refl _⟩
      obtain ⟨rEq, rInv, rLines⟩ :=
        ihop (out ++ (w.Flush).1) (w.Flush).2 hwInv (isLines_append hout (hf1 ▸ hw.1))
      refine ⟨?_, rInv, rLines⟩
      rw [rEq, hf1]
      have hfb : (w.Flush).2.buffer = [] := rfl
      have hfl : (w.Flush).2.linebuf = w.linebuf := rfl
      rw [hfb, hfl]
      simp [List.append_assoc]

/-- C3: over any sequence of Write and Flush calls from a fresh LIB of
capacity `size` (capacity-triggered flushes happen inside Write; no
FlushAll), the bytes handed to the underlying writer followed by the
committed buffer and the staging area reconstitute exactly the
submitted byte string B; hence the underlying writer observed a prefix
of B made only of whole newline-terminated lines (empty or ending in
the newline byte), the bytes still inside the LIB are exactly the
remaining suffix, the committed buffer also holds only whole lines, and
the staging area holds no newline — at most one partial trailing
fragment. -/
theorem c3_line_integrity (size : Nat) (ops : List LOp) :
    ((runW (NewWriterSize size) ops).1 ++ (runW (NewWriterSize size) ops).2.buffer
        ++ (runW (NewWriterSize size) ops).2.linebuf = inputB ops)
    ∧ (∃ t, (runW (NewWriterSize size) ops).1 ++ t = inputB ops)
    ∧ isLines (runW (NewWriterSize size) ops).1
    ∧ isLines (runW (NewWriterSize size) ops).2.buffer
    ∧ 10 ∉ (runW (NewWriterSize size) ops).2.linebuf := by
  have hfresh : WInv (NewWriterSize size) :=
    ⟨isLines_nil, by simp [NewWriterSize], fun _ => rfl, le_refl _⟩
  obtain ⟨hEq, hInv, hLines⟩ := runW_fold ops [] (NewWriterSize size) hfresh isLines_nil
  simp only [NewWriterSize, List.nil_append] at hEq
  have hEq2 : (runW (NewWriterSize size) ops).1 ++ (runW (NewWriterSize size) ops).2.buffer
      ++ (runW (NewWriterSize size) ops).2.linebuf = inputB ops := hEq
  refine ⟨hEq2, ?_, hLines, hInv.1, hInv.2.1⟩
  exact ⟨(runW (NewWriterSize size) ops).2.buffer ++ (runW (NewWriterSize size) ops).2.linebuf,
    by rw [← List.append_assoc]; exact hEq2⟩


/-- C7: a Flush immediately followed by another Flush hands no bytes to
the underlying writer on the second call (which, in the source, does
not even invoke the underlying writer since the committed buffer is
empty, and therefore returns nil), and the second call leaves the
writer state unchanged. -/
theorem c7_flush_idempotent (w : Writer) :
    ((w.Flush).2.Flush).1 = [] ∧ ((w.Flush).2.Flush).2 = (w.Flush).2 := by
  constructor
  · simp [Writer.Flush]
  · rfl

/-- C1: the source's Write counts every accepted byte, including the
trailing bytes after the last newline that are only staged (the
io.Writer contract), so on a fresh LIB Write "1\n2\n3\n456" returns
nn = 9, not the 6 promised by the claim and by the function's own doc
comment; a fresh Write "456" already returns 3 rather than 0, and the
later Write "\n" that closes those staged bytes returns only 1, not 4. -/
theorem c1_write_count :
    (Writer.Write (NewWriterSize 1048576) [49, 10, 50, 10, 51, 10, 52, 53, 54]).1 = 9
    ∧ (Writer.Write (NewWriterSize 1048576) [52, 53, 54]).1 = 3
    ∧ (Writer.Write (Writer.Write (NewWriterSize 1048576) [52, 53, 54]).2.2 [10]).1 = 1 := by
  refine ⟨by decide, by decide, by decide⟩

/-- C2: with a registered entry whose Close fails, Logrotate acquires
the entry lock, calls Close, skips the Logrotate call and releases the
lock — but returns nil instead of the Close error, because the source's
`if err := buf.Buf.Close(); err != nil` declares an if-scoped err that
shadows the named return value. -/
theorem c2_close_error_swallowed :
    FileOp.Logrotate [("k", { closeErr := some "boom", rotErr := none })] "k" "p"
      = ([FileOp.RotEvent.lockAcquire, FileOp.RotEvent.closeCall,
          FileOp.RotEvent.lockRelease], none)
    ∧ (some "boom" : Option String) ≠ none := by
  refine ⟨by decide, by decide⟩

/-- C10: DumpState only appends the serialized fields to dest — the
result is dest followed by the payload of the empty-destination dump —
and returns the writer unchanged, so every future Write, Flush and
WorthFlushing call behaves exactly as without the DumpState call. -/
theorem c10_dumpState_frame (w : Writer) (dest : List Nat) :
    (Writer.DumpState w dest).2 = w
    ∧ (Writer.DumpState w dest).1 = dest ++ (Writer.DumpState w []).1
    ∧ (∀ ops : List LOp, runW (Writer.DumpState w dest).2 ops = runW w ops)
    ∧ (Writer.DumpState w dest).2.WorthFlushing = w.WorthFlushing := by
  refine ⟨rfl, ?_, fun ops => rfl, rfl⟩
  simp [Writer.DumpState, List.append_assoc]

/-- C6: inside Write, before a merged line is appended to the committed
buffer: whenever the committed length plus the line length exceeds the
capacity, the committed bytes are flushed to the underlying writer
first (so the buffer is empty) and the worthFlushing hint is cleared;
in every case the committed buffer holds at most bufsize bytes at the
moment of the append, and the line is then appended whole, never split. -/
theorem c6_capacity_flush (w : Writer) (line : List Nat) :
    (w.buffer.length + line.length > w.bufsize →
       ((w.preAppend line).1 = w.buffer
        ∧ (w.preAppend line).2.buffer = []
        ∧ (w.preAppend line).2.worthFlushing = false))
    ∧ (w.preAppend line).2.buffer.length ≤ w.bufsize
    ∧ (w.commitLine line).2.buffer = (w.preAppend line).2.buffer ++ line := by
  rcases preAppend_cases w line with ⟨h, he⟩ | ⟨h, he⟩
  · refine ⟨fun _ => ?_, ?_, ?_⟩
    · rw [he]; exact ⟨rfl, rfl, rfl⟩
    · rw [he]; simp
    · simp [Writer.commitLine]
  · refine ⟨fun hgt => absurd hgt (by omega), ?_, ?_⟩
    · rw [he]; dsimp only; omega
    · simp [Writer.commitLine]

/-- Witness for C6 at a concrete over-capacity state: capacity 4,
two committed bytes, incoming three-byte line. -/
theorem c6_capacity_flush_witness :
    (wC6.preAppend [98, 99, 10]).1 = [97, 10]
    ∧ (wC6.preAppend [98, 99, 10]).2.buffer = []
    ∧ (wC6.preAppend [98, 99, 10]).2.worthFlushing = false
    ∧ (wC6.preAppend [98, 99, 10]).2.buffer.length ≤ wC6.bufsize
    ∧ (wC6.commitLine [98, 99, 10]).2.buffer
        = (wC6.preAppend [98, 99, 10]).2.buffer ++ [98, 99, 10] := by
  obtain ⟨h1, h2, h3⟩ := c6_capacity_flush wC6 [98, 99, 10]
  obtain ⟨ha, hb, hc⟩ := h1 (by decide)
  exact ⟨ha, hb, hc, h2, h3⟩


/-- C9: GetFile returns a registered entry as-is without running the
factory and without touching the map; for an unknown key it runs the
factory, surfacing a factory error with the map unchanged, and on
factory success inserting the new entry and returning it. -/
theorem c9_getFile (items : List (String × BufM)) (factory : String → GRes)
    (name : String) :
    (∀ b, items.lookup name = some b →
       FileOp.GetFile items factory name = (GRes.ok b, items, false))
    ∧ (∀ e, items.lookup name = none → factory name = GRes.err e →
         FileOp.GetFile items factory name = (GRes.err e, items, true))
    ∧ (∀ b, items.lookup name = none → factory name = GRes.ok b →
         FileOp.GetFile items factory name = (GRes.ok b, (name, b) :: items, true)) := by
  refine ⟨?_, ?_, ?_⟩
  · intro b hb
    simp [FileOp.GetFile, hb]
  · intro e hn he
    simp [FileOp.GetFile, hn, he]
  · intro b hn hb
    simp [FileOp.GetFile, hn, hb]

/-- Witness for C9: a one-entry registry; hit, factory failure and
factory success each behave as stated. -/
theorem c9_getFile_witness :
    FileOp.GetFile items9 factory9 "a" = (GRes.ok bufA, items9, false)
    ∧ FileOp.GetFile items9 factory9 "c" = (GRes.err "factoryfail", items9, true)
    ∧ FileOp.GetFile items9 factory9 "b" = (GRes.ok bufB, ("b", bufB) :: items9, true) :=
  ⟨(c9_getFile items9 factory9 "a").1 bufA (by decide),
   (c9_getFile items9 factory9 "c").2.1 "factoryfail" (by decide) (by decide),
   (c9_getFile items9 factory9 "b").2.2 bufB (by decide) (by decide)⟩

theorem applyOp_inv (w : Writer) (op : Op) (hw : WInv w) : WInv (applyOp w op) := by
  cases op with
  | write d => exact (Write_spec w d hw).2.1
  | flush => exact ⟨isLines_nil, hw.2.1, hw.2.2.1, le_refl _⟩
  | flushAll => exact ⟨isLines_nil, List.not_mem_nil 10, fun _ => rfl, le_refl _⟩
  | check => exact ⟨hw.1, hw.2.1, hw.2.2.1, hw.2.2.2⟩

theorem runOps_inv (ops : List Op) : ∀ w, WInv w → WInv (ops.foldl applyOp w) := by
  induction ops with
  | nil => intro w hw; exact hw
  | cons op rest ihop =>
    intro w hw
    rw [List.foldl_cons]
    exact ihop _ (applyOp_inv w op hw)

theorem reachable_inv {w : Writer} (h : Reachable w) : WInv w := by
  obtain ⟨size, ops, hrun⟩ := h
  subst hrun
  exact runOps_inv ops (NewWriterSize size)
    ⟨isLines_nil, List.not_mem_nil 10, fun _ => rfl, le_refl _⟩

/-- C5: on every reachable LIB state, WorthFlushing returns true
exactly when the worthFlushing flag is set, savedLineCount is strictly
below lineCount, and savedLineCount equals prevLineCount (the source
compares with != which, under the reachable-state invariant
savedLineCount ≤ lineCount, coincides with <); the call always sets
prevLineCount to the entry savedLineCount and re-arms worthFlushing. -/
theorem c5_worthFlushing (w : Writer) (h : Reachable w) :
    ((w.WorthFlushing).1 = true ↔
      (w.worthFlushing = true ∧ w.savedLineCount < w.lineCount
        ∧ w.savedLineCount = w.prevLineCount))
    ∧ (w.WorthFlushing).2.prevLineCount = w.savedLineCount
    ∧ (w.WorthFlushing).2.worthFlushing = true := by
  have hcnt : w.savedLineCount ≤ w.lineCount := (reachable_inv h).2.2.2
  refine ⟨?_, rfl, rfl⟩
  simp only [Writer.WorthFlushing, Bool.and_eq_true, bne_iff_ne, beq_iff_eq, ne_eq]
  constructor
  · rintro ⟨⟨hwf, hne⟩, hpe⟩
    exact ⟨hwf, by omega, hpe⟩
  · rintro ⟨hwf, hlt, hpe⟩
    exact ⟨⟨hwf, by omega⟩, hpe⟩

/-- Witness for C5 at the concrete reachable state wC5 (fresh capacity
100 writer after Write "a\n"), where WorthFlushing returns true. -/
theorem c5_worthFlushing_witness :
    ((wC5.WorthFlushing).1 = true ↔
      (wC5.worthFlushing = true ∧ wC5.savedLineCount < wC5.lineCount
        ∧ wC5.savedLineCount = wC5.prevLineCount))
    ∧ (wC5.WorthFlushing).2.prevLineCount = wC5.savedLineCount
    ∧ (wC5.WorthFlushing).2.worthFlushing = true :=
  c5_worthFlushing wC5 ⟨100, [Op.write [97, 10]], by decide⟩


theorem decode_enc (n : Nat) : decodeU32 (encUint32 n) = n % 4294967296 := by
  simp only [decodeU32, encUint32]
  omega

theorem rdBytes_exact (x r : List Nat) : rdByteSeq x.length (x ++ r) = some (x, r) := by
  unfold rdByteSeq
  rw [if_pos (by simp), List.take_left, List.drop_left]

theorem rdBytes_exact' (n : Nat) (x r : List Nat) (h : x.length = n) :
    rdByteSeq n (x ++ r) = some (x, r) := by
  subst h
  exact rdBytes_exact x r

theorem rdUint32_enc (n : Nat) (r : List Nat) :
    rdUint32 (encUint32 n ++ r) = some (n % 4294967296, r) := by
  unfold rdUint32
  rw [rdBytes_exact' 4 (encUint32 n) r rfl]
  simp [decode_enc]

theorem rdBool_enc (b : Bool) (r : List Nat) :
    rdBool (encBool b ++ r) = some (b, r) := by
  cases b <;> simp [rdBool, encBool, rdByteSeq]

theorem rdBool_encl (b : Bool) : rdBool (encBool b) = some (b, []) := by
  cases b <;> simp [rdBool, encBool, rdByteSeq]

/-- C4: DumpState serializes the eight fields as length-prefixed binary
fields in source order, and RestoreState of that serialization on any
Writer reproduces the dumped state exactly (all eight fields), provided
each length and counter fits a u32 (the checkpoint stores them
truncated to 32 bits); consequently the restored writer produces
byte-identical downstream output for any identical future sequence of
Writes and Flushes. -/
theorem c4_checkpoint_roundtrip (w w0 : Writer)
    (h1 : w.bufsize < 4294967296) (h2 : w.buffer.length < 4294967296)
    (h3 : w.linebuf.length < 4294967296) (h4 : w.lineCount < 4294967296)
    (h5 : w.savedLineCount < 4294967296) (h6 : w.prevLineCount < 4294967296) :
    Writer.RestoreState w0 (Writer.DumpState w []).1 = some w
    ∧ ∀ w' (ops : List LOp),
        Writer.RestoreState w0 (Writer.DumpState w []).1 = some w' →
          runW w' ops = runW w ops := by
  have hmain : Writer.RestoreState w0 (Writer.DumpState w []).1 = some w := by
    simp only [Writer.DumpState, List.nil_append, List.append_assoc]
    simp only [Writer.RestoreState, rdUint32_enc, rdBool_enc, rdBool_encl,
      rdBytes_exact, Nat.mod_eq_of_lt h1, Nat.mod_eq_of_lt h2, Nat.mod_eq_of_lt h3,
      Nat.mod_eq_of_lt h4, Nat.mod_eq_of_lt h5, Nat.mod_eq_of_lt h6]
  refine ⟨hmain, ?_⟩
  intro w' ops heq
  rw [hmain] at heq
  injection heq with heq'
  rw [← heq']

/-- Witness for C4: the writer wC4 (fresh 1 MiB LIB after Write
"hello\nwor") restores exactly from its own dump, and writing "ld\n"
afterwards ends with committed "hello\nworld\n". -/
theorem c4_checkpoint_roundtrip_witness :
    Writer.RestoreState (NewWriterSize 16) (Writer.DumpState wC4 []).1 = some wC4
    ∧ (Writer.Write wC4 [108, 100, 10]).2.2.buffer
        = [104, 101, 108, 108, 111, 10, 119, 111, 114, 108, 100, 10] :=
  ⟨(c4_checkpoint_roundtrip wC4 (NewWriterSize 16) (by decide) (by decide) (by decide)
      (by decide) (by decide) (by decide)).1, by decide⟩

theorem rdBytes_take (n : Nat) (x r : List Nat) (h : x.length = n) (k : Nat) :
    rdByteSeq n ((x ++ r).take k)
      = if n ≤ k then some (x, r.take (k - n)) else none := by
  subst h
  rw [List.take_append_eq_append_take]
  by_cases hk : x.length ≤ k
  · rw [if_pos hk, List.take_of_length_le hk]
    exact rdBytes_exact x (r.take (k - x.length))
  · rw [if_neg hk]
    have h0 : k - x.length = 0 := by omega
    rw [h0, List.take_zero, List.append_nil]
    unfold rdByteSeq
    rw [if_neg (by rw [List.length_take]; omega)]

theorem rdUint32_take (m : Nat) (r : List Nat) (k : Nat) :
    rdUint32 ((encUint32 m ++ r).take k)
      = if 4 ≤ k then some (m % 4294967296, r.take (k - 4)) else none := by
  unfold rdUint32
  rw [rdBytes_take 4 (encUint32 m) r rfl k]
  by_cases h4 : 4 ≤ k <;> simp [h4, decode_enc]

theorem rdBool_take (b : Bool) (r : List Nat) (k : Nat) :
    rdBool ((encBool b ++ r).take k)
      = if 1 ≤ k then some (b, r.take (k - 1)) else none := by
  unfold rdBool
  rw [rdBytes_take 1 (encBool b) r (by cases b <;> rfl) k]
  by_cases h1 : 1 ≤ k
  · cases b <;> simp [h1, encBool]
  · simp [h1]



/-- C8: any strict prefix of a checkpoint — an input too short to hold
all the length-prefixed fields — makes RestoreState fail with the hard
error (the modelled panic), mirroring the source where every field is
read before any field of the Writer is assigned, so a failed restore
never leaves the Writer partially initialized. -/
theorem c8_short_restore (w w0 : Writer)
    (h2 : w.buffer.length < 4294967296) (h3 : w.linebuf.length < 4294967296)
    (k : Nat) (hk : k < (Writer.DumpState w []).1.length) :
    Writer.RestoreState w0 ((Writer.DumpState w []).1.take k) = none := by
  have hlen : (Writer.DumpState w []).1.length
      = 26 + w.buffer.length + w.linebuf.length := by
    simp [Writer.DumpState, encUint32, encBool]
    omega
  rw [hlen] at hk
  simp only [Writer.DumpState, List.nil_append, List.append_assoc]
  simp only [Writer.RestoreState]
  rw [rdUint32_take]
  by_cases c1 : 4 ≤ k
  case neg => simp [c1]
  case pos =>
  simp only [c1, if_true, ite_true]
  rw [rdUint32_take]
  by_cases c2 : 4 ≤ k - 4
  case neg => simp [c2]
  case pos =>
  simp only [c2, if_true, ite_true, Nat.mod_eq_of_lt h2]
  rw [rdBytes_take w.buffer.length w.buffer _ rfl]
  by_cases c3 : w.buffer.length ≤ k - 4 - 4
  case neg => simp [c3]
  case pos =>
  simp only [c3, if_true, ite_true]
  rw [rdUint32_take]
  by_cases c4 : 4 ≤ k - 4 - 4 - w.buffer.length
  case neg => simp [c4]
  case pos =>
  simp only [c4, if_true, ite_true, Nat.mod_eq_of_lt h3]
  rw [rdBytes_take w.linebuf.length w.linebuf _ rfl]
  by_cases c5 : w.linebuf.length ≤ k - 4 - 4 - w.buffer.length - 4
  case neg => simp [c5]
  case pos =>
  simp only [c5, if_true, ite_true]
  rw [rdBool_take]
  by_cases c6 : 1 ≤ k - 4 - 4 - w.buffer.length - 4 - w.linebuf.length
  case neg => simp [c6]
  case pos =>
  simp only [c6, if_true, ite_true]
  rw [rdUint32_take]
  by_cases c7 : 4 ≤ k - 4 - 4 - w.buffer.length - 4 - w.linebuf.length - 1
  case neg => simp [c7]
  case pos =>
  simp only [c7, if_true, ite_true]
  rw [rdUint32_take]
  by_cases c8 : 4 ≤ k - 4 - 4 - w.buffer.length - 4 - w.linebuf.length - 1 - 4
  case neg => simp [c8]
  case pos =>
  simp only [c8, if_true, ite_true]
  rw [rdUint32_take]
  by_cases c9 : 4 ≤ k - 4 - 4 - w.buffer.length - 4 - w.linebuf.length - 1 - 4 - 4
  case neg => simp [c9]
  case pos =>
  simp only [c9, if_true, ite_true]
  have hk9 : k - 4 - 4 - w.buffer.length - 4 - w.linebuf.length - 1 - 4 - 4 - 4 = 0 := by
    omega
  rw [hk9, List.take_zero]
  rfl

/-- Witness for C8: a concrete 29-byte checkpoint truncated to 5 bytes
is rejected by RestoreState. -/
theorem c8_short_restore_witness :
    Writer.RestoreState (NewWriterSize 4) ((Writer.DumpState wC8 []).1.take 5) = none :=
  c8_short_restore wC8 (NewWriterSize 4) (by decide) (by decide) 5 (by decide)


end Logcarrier
